import Mathlib

/-!
Verification development for the Windows Prefetch analyzer
(src/analyzers/prefetch_analyzer.py of jlahire/dotty).

Shallow embedding conventions:
* byte buffers are `List Nat` (each element a byte value 0..255; the Python
  code never depends on values being < 256, so no modular wrap is needed);
* Python `struct.unpack` little-endian reads become `readLE16/32/64`; a read
  past the end of the buffer raises in Python and is caught by the enclosing
  `try`, which the embedding reflects with explicit length guards at exactly
  the offsets the source reads;
* `datetime` values are whole microseconds since 1601-01-01 (a `Nat`).  The
  source computes `timedelta(microseconds=filetime / 10)`: Python's int/int
  division performs one correct rounding of the exact quotient to the nearest
  binary64 double (ties to even), and `timedelta` rounds that double to a
  whole microsecond (ties to even).  Both roundings are reproduced exactly in
  rational arithmetic by `float_round_div10` — including the double-rounding
  effects above `2^53` — since a binary64 value is itself a rational.
  `datetime` overflow past 9999-12-31 raises `OverflowError`, caught by the
  source's bare `except` returning `None`; the model compares the rounded
  microsecond count against the exact span `datetime.max - datetime(1601,1,1)`;
* the two `while` loops of `_lznt1_decompress` advance `pos` by at least one
  byte per iteration, so both are embedded with a structural fuel argument
  instantiated at `data.length + 1`, which is always sufficient; the
  fuel-irrelevance theorem for the outer loop is part of claim C8;
* the analyzer object's mutable fields become an explicit `AnalyzerState`
  threaded through the per-file pipeline; `self.programs` (a Python dict,
  insertion ordered, unique keys) is an association list;
* the UTF-16LE decoding of the executable-name window (`errors='ignore'`,
  trailing-NUL strip) is kept as the raw 60-byte window: no claim depends on
  the decoded characters, only on the name's role as an aggregation key.
  Likewise `prefetch_hash` keeps the `u32` value rather than its 8-hex-digit
  rendering, and the `file_path` field (same information as `filename`) and
  progress-tracker callbacks are omitted.
-/

/-- Little-endian 16-bit read at `pos`, as `struct.unpack('<H', data[pos:pos+2])`.
Out-of-range positions default to 0; every call site guards the bound exactly
where the source does. -/
def readLE16 (data : List Nat) (pos : Nat) : Nat :=
  data.getD pos 0 + 256 * data.getD (pos + 1) 0

/-- Little-endian 32-bit read at `pos`, as `struct.unpack('<I', ...)`. -/
def readLE32 (data : List Nat) (pos : Nat) : Nat :=
  data.getD pos 0 + 256 * data.getD (pos + 1) 0 +
    65536 * data.getD (pos + 2) 0 + 16777216 * data.getD (pos + 3) 0

/-- Little-endian 64-bit read at `pos`, as `struct.unpack('<Q', ...)`. -/
def readLE64 (data : List Nat) (pos : Nat) : Nat :=
  readLE32 data pos + 4294967296 * readLE32 data (pos + 4)

/-! ### LZNT1 decompression engine (`_lznt1_decompress`) -/

/-- Source lines 329-336: the bit-split selector.  `max_bits` is the number of
distance bits of a back-reference token, chosen from the output length at the
moment the token is decoded. -/
def max_bits (output_size : Nat) : Nat :=
  if output_size < 0x10 then 4
  else if output_size < 0x20 then 5
  else if output_size < 0x1000 then 6
  else 12

/-- Source line 338: `length_bits = 16 - max_bits`. -/
def length_bits (output_size : Nat) : Nat := 16 - max_bits output_size

/-- Source lines 339-342: decode a 16-bit back-reference token into
`(match_length, match_distance)` given the current output size:
`length_mask = (1 << length_bits) - 1`, `match_length = (token & length_mask) + 3`,
`match_distance = (token >> length_bits) + 1`. -/
def decode_token (output_size token : Nat) : Nat × Nat :=
  ((token &&& ((1 <<< length_bits output_size) - 1)) + 3,
   (token >>> length_bits output_size) + 1)

/-- Source lines 350-356: the byte-by-byte back-reference copy for a valid
distance.  `start_pos` is the read cursor; the `else` arm is the in-loop
zero-padding fallback, which (faithfully to the source) does not advance the
cursor. -/
def copy_from_window (output : List Nat) (start_pos : Nat) : Nat → List Nat
  | 0 => output
  | n + 1 =>
    if start_pos < output.length then
      copy_from_window (output ++ [output.getD start_pos 0]) (start_pos + 1) n
    else
      copy_from_window (output ++ [0]) start_pos n

/-- Mirror of `copy_from_window` recording whether the zero-padding fallback
arm (`start_pos ≥ len(output)`) is ever taken during the copy. -/
def copy_pad_used (output : List Nat) (start_pos : Nat) : Nat → Bool
  | 0 => false
  | n + 1 =>
    if start_pos < output.length then
      copy_pad_used (output ++ [output.getD start_pos 0]) (start_pos + 1) n
    else
      true

/-- Variant of `copy_from_window` with the zero-padding fallback arm removed:
every step reads the byte at the cursor and advances it. -/
def copy_in_window (output : List Nat) (start_pos : Nat) : Nat → List Nat
  | 0 => output
  | n + 1 => copy_in_window (output ++ [output.getD start_pos 0]) (start_pos + 1) n

/-- Source lines 311-363: the `for bit in range(8)` token loop of a compressed
chunk.  `bits` counts the remaining flag bits; the flag byte is examined
low-bit-first (`flag % 2`, then `flag / 2`, matching `flag_byte & (1 << bit)`).
Returning early models the loop's `break` statements; the surrounding chunk
loop re-checks its own conditions afterwards, as in the source. -/
def process_tokens (data : List Nat) (size chunk_end : Nat) :
    Nat → Nat → Nat → List Nat → Nat × List Nat
  | 0, _, pos, output => (pos, output)
  | bits + 1, flag, pos, output =>
    if size ≤ output.length then (pos, output)
    else if chunk_end ≤ pos then (pos, output)
    else if flag % 2 = 1 then
      if data.length < pos + 2 then (pos, output)
      else
        let token := readLE16 data pos
        let dec := decode_token output.length token
        let output' :=
          if output.length < dec.2 then
            output ++ List.replicate dec.1 0
          else
            copy_from_window output (output.length - dec.2) dec.1
        process_tokens data size chunk_end bits (flag / 2) (pos + 2) output'
    else
      if data.length ≤ pos then (pos, output)
      else process_tokens data size chunk_end bits (flag / 2) (pos + 1)
        (output ++ [data.getD pos 0])

/-- Source lines 302-363: the `while pos < chunk_end and len(output) < size`
loop of a compressed chunk: read one flag byte, process its 8 tokens, repeat.
`pos` strictly increases each iteration while below `data.length`, so fuel
`data.length + 1` (the instantiation used below) always suffices. -/
def process_chunk (data : List Nat) (size chunk_end : Nat) :
    Nat → Nat → List Nat → Nat × List Nat
  | 0, pos, output => (pos, output)
  | fuel + 1, pos, output =>
    if pos < chunk_end ∧ output.length < size then
      if pos < data.length then
        let r := process_tokens data size chunk_end 8 (data.getD pos 0) (pos + 1) output
        process_chunk data size chunk_end fuel r.1 r.2
      else (pos, output)
    else (pos, output)

/-- Source lines 279-363: the outer chunk loop of `_lznt1_decompress`.
Each iteration consumes the 2-byte chunk header and at least one more input
position, so fuel `data.length + 1` always suffices (claim C8 proves the
result is independent of any sufficient fuel). -/
def lznt1_loop (data : List Nat) (size : Nat) :
    Nat → Nat → List Nat → List Nat
  | 0, _, output => output
  | fuel + 1, pos, output =>
    if pos < data.length ∧ output.length < size then
      if data.length < pos + 2 then output
      else
        let chunk_header := readLE16 data pos
        if chunk_header = 0 then output
        else
          let chunk_size := (chunk_header &&& 0x0FFF) + 1
          let chunk_end := pos + 2 + chunk_size
          if chunk_header &&& 0x8000 = 0 then
            lznt1_loop data size fuel chunk_end
              (output ++ (data.drop (pos + 2)).take chunk_size)
          else
            let r := process_chunk data size chunk_end (data.length + 1) (pos + 2) output
            lznt1_loop data size fuel r.1 r.2
    else output

/-- Source lines 262-365: `_lznt1_decompress(compressed_data, uncompressed_size)`.
The source returns `bytes(output[:uncompressed_size])`. -/
def lznt1_decompress (data : List Nat) (size : Nat) : List Nat :=
  (lznt1_loop data size (data.length + 1) 0 []).take size

/-! ### MAM container decoder (`_decompress_mam`) -/

/-- The 4-byte signature `b'MAM\x04'`. -/
def mam_magic : List Nat := [0x4D, 0x41, 0x4D, 0x04]

/-- Source lines 219-260: `_decompress_mam`.  Reads the declared uncompressed
size at bytes 4-7 (a short buffer raises in `struct.unpack` and is caught,
yielding `None`), decompresses the payload from offset 8, and accepts the
result only if it is non-empty (`if decompressed` — Python truthiness of
`bytes`) and its length equals the declared size. -/
def decompress_mam (data : List Nat) : Option (List Nat) :=
  if data.take 4 ≠ mam_magic then none
  else if data.length < 8 then none
  else
    let uncompressed_size := readLE32 data 4
    let decompressed := lznt1_decompress (data.drop 8) uncompressed_size
    if decompressed ≠ [] ∧ decompressed.length = uncompressed_size then some decompressed
    else none

/-! ### FILETIME conversion (`_filetime_to_datetime`) -/

/-- Microseconds from 1601-01-01T00:00:00 to `datetime.max`
(9999-12-31T23:59:59.999999): 3067670 days plus 86399999999 microseconds. -/
def datetime_max_micro : Nat := 3067670 * 86400000000 + 86399999999

/-- Round the rational `num / den` (for `den ≠ 0`) to the nearest integer,
ties to even. -/
def rhe_div (num den : Nat) : Nat :=
  if 2 * (num % den) < den then num / den
  else if den < 2 * (num % den) then num / den + 1
  else if (num / den) % 2 = 0 then num / den else num / den + 1

/-- Fuel-driven floor base-2 logarithm; fuel `n` always suffices for
argument `n` (the value halves each step). -/
def log2_fuel : Nat → Nat → Nat
  | 0, _ => 0
  | fuel + 1, n => if 2 ≤ n then log2_fuel fuel (n / 2) + 1 else 0

/-- Floor of the base-2 logarithm (0 at 0). -/
def nat_log2 (n : Nat) : Nat := log2_fuel n n

/-- The exact value, in whole microseconds, of Python's
`timedelta(microseconds=filetime / 10)` for a positive `filetime`.
`filetime / 10` is `int.__truediv__`: one correct rounding of the exact
quotient to the nearest binary64 double, ties to even; `timedelta` then
rounds that double to a whole microsecond, ties to even.  Both roundings are
performed here in exact rational arithmetic: the quotient is scaled by
`2^60` so that its binary exponent `e` is non-negative (for `f ≥ 1` it is at
least 56), the 53-bit mantissa is rounded half-to-even at spacing
`2^(e-52)`, and the resulting dyadic is rounded to an integer half-to-even.
Binary64 overflow to infinity cannot change any outcome: it would need a
quotient beyond 1.7e308, while every quotient beyond `datetime_max_micro` —
far smaller — already maps to `None` through the same bare `except`. -/
def float_round_div10 (f : Nat) : Nat :=
  let e := nat_log2 (f * 2 ^ 60 / 10)
  if 112 ≤ e then
    rhe_div (f * 2 ^ 60) (10 * 2 ^ (e - 52)) * 2 ^ (e - 112)
  else
    rhe_div (rhe_div (f * 2 ^ 60) (10 * 2 ^ (e - 52))) (2 ^ (112 - e))

/-- Source lines 523-534: `_filetime_to_datetime`.  Zero is the "absent"
sentinel and maps to `None`; otherwise `datetime(1601,1,1) +
timedelta(microseconds=filetime / 10)` — the float division and timedelta
rounding modeled exactly by `float_round_div10` — with `OverflowError` past
`datetime.max` caught and mapped to `None`. -/
def filetime_to_datetime (f : Nat) : Option Nat :=
  if f = 0 then none
  else
    let m := float_round_div10 f
    if m ≤ datetime_max_micro then some m else none

/-! ### Prefetch record parser (`_parse_version_17/23/26/30`) -/

/-- Parsed prefetch record, the dict built by the `_parse_version_*` functions
(`version_name` is `PREFETCH_VERSIONS[version]`; see module comment for the
`executable_name`, `prefetch_hash` and `file_path` conventions). -/
structure PrefetchRecord where
  filename : String
  version : Nat
  version_name : String
  executable_name : List Nat
  prefetch_hash : Nat
  run_count : Nat
  last_execution : Option Nat
  execution_times : List Nat
  deriving Repr, DecidableEq

/-- Source lines 31-36: the `PREFETCH_VERSIONS` table. -/
def prefetch_version_name (v : Nat) : String :=
  if v = 17 then "Windows XP/2003"
  else if v = 23 then "Windows Vista/7"
  else if v = 26 then "Windows 8.1"
  else if v = 30 then "Windows 10/11"
  else ""

/-- Source lines 371-405: `_parse_version_17`.  The fixed-offset reads are at
0x4C (hash), 0x90 (run count) and 0x78 (FILETIME); the furthest read ends at
0x94, and any shorter buffer raises in `struct.unpack` and yields `None`. -/
def parse_version_17 (data : List Nat) (filename : String) : Option PrefetchRecord :=
  if data.length < 0x94 then none
  else
    let last := filetime_to_datetime (readLE64 data 0x78)
    some
      { filename := filename
        version := 17
        version_name := prefetch_version_name 17
        executable_name := (data.drop 0x10).take 60
        prefetch_hash := readLE32 data 0x4C
        run_count := readLE32 data 0x90
        last_execution := last
        execution_times := match last with | some dt => [dt] | none => [] }

/-- Source lines 407-437: `_parse_version_23`; offsets 0x4C, 0x98, 0x80, the
furthest read ends at 0x9C. -/
def parse_version_23 (data : List Nat) (filename : String) : Option PrefetchRecord :=
  if data.length < 0x9C then none
  else
    let last := filetime_to_datetime (readLE64 data 0x80)
    some
      { filename := filename
        version := 23
        version_name := prefetch_version_name 23
        executable_name := (data.drop 0x10).take 60
        prefetch_hash := readLE32 data 0x4C
        run_count := readLE32 data 0x98
        last_execution := last
        execution_times := match last with | some dt => [dt] | none => [] }

/-- Source lines 453-462 (and identically 494-504): the slot loop reading up to
8 FILETIMEs at offset `0x80 + 8*i`.  A read past the buffer raises and the
`except: break` stops the loop; a zero/overflow FILETIME converts to `None`
and is skipped. -/
def exec_times_from (data : List Nat) : Nat → Nat → List Nat
  | _, 0 => []
  | i, fuel + 1 =>
    let offset := 0x80 + i * 8
    if data.length < offset + 8 then []
    else
      match filetime_to_datetime (readLE64 data offset) with
      | some dt => dt :: exec_times_from data (i + 1) fuel
      | none => exec_times_from data (i + 1) fuel

/-- The up-to-8 execution times of a version 26/30 record. -/
def exec_times_8 (data : List Nat) : List Nat := exec_times_from data 0 8

/-- Source lines 439-479: `_parse_version_26`; offsets 0x4C, 0xD0 and the slot
loop; `last_execution` is the first collected time, if any. -/
def parse_version_26 (data : List Nat) (filename : String) : Option PrefetchRecord :=
  if data.length < 0xD4 then none
  else
    let times := exec_times_8 data
    some
      { filename := filename
        version := 26
        version_name := prefetch_version_name 26
        executable_name := (data.drop 0x10).take 60
        prefetch_hash := readLE32 data 0x4C
        run_count := readLE32 data 0xD0
        last_execution := times.head?
        execution_times := times }

/-- Source lines 481-521: `_parse_version_30`, identical layout to version 26. -/
def parse_version_30 (data : List Nat) (filename : String) : Option PrefetchRecord :=
  if data.length < 0xD4 then none
  else
    let times := exec_times_8 data
    some
      { filename := filename
        version := 30
        version_name := prefetch_version_name 30
        executable_name := (data.drop 0x10).take 60
        prefetch_hash := readLE32 data 0x4C
        run_count := readLE32 data 0xD0
        last_execution := times.head?
        execution_times := times }

/-- Source lines 194-213: version dispatch on an uncompressed buffer.  A buffer
under 4 bytes or a version outside {17, 23, 26, 30} yields no record. -/
def parse_prefetch_data (data : List Nat) (filename : String) : Option PrefetchRecord :=
  if data.length < 4 then none
  else
    let version := readLE32 data 0
    if version = 17 then parse_version_17 data filename
    else if version = 23 then parse_version_23 data filename
    else if version = 26 then parse_version_26 data filename
    else if version = 30 then parse_version_30 data filename
    else none

/-! ### Aggregator data model and analyzer state -/

/-- One entry of `self.execution_timeline` (source lines 536-545). -/
structure TimelineEntry where
  timestamp : Nat
  executable : List Nat
  prefetch_file : String
  deriving Repr, DecidableEq

/-- One value of the `self.programs` dict (source lines 547-579). -/
structure ProgramAggregate where
  name : List Nat
  run_count : Nat
  last_execution : Option Nat
  first_execution : Option Nat
  execution_times : List Nat
  prefetch_files : List String
  version : Nat
  deriving Repr, DecidableEq

/-- The analyzer's mutable fields (source lines 54-58); the progress tracker
and logging are omitted, and the final descending timeline sort of `analyze`
(line 137) is not modeled since no claim refers to the sorted order. -/
structure AnalyzerState where
  prefetch_files : List PrefetchRecord
  execution_timeline : List TimelineEntry
  programs : List (List Nat × ProgramAggregate)
  compressed_count : Nat
  decompression_failed : List String
  deriving Repr, DecidableEq

/-- The freshly initialized analyzer (source lines 54-58). -/
def init_state : AnalyzerState :=
  { prefetch_files := []
    execution_timeline := []
    programs := []
    compressed_count := 0
    decompression_failed := [] }

/-- Dict lookup on the insertion-ordered association list `self.programs`. -/
def lookup_program (ps : List (List Nat × ProgramAggregate)) (k : List Nat) :
    Option ProgramAggregate :=
  match ps with
  | [] => none
  | (k', v) :: rest => if k' = k then some v else lookup_program rest k

/-- In-place update of the entry with key `k` (dict item assignment on an
existing key; keys in `programs` are unique by construction). -/
def update_program (ps : List (List Nat × ProgramAggregate)) (k : List Nat)
    (v : ProgramAggregate) : List (List Nat × ProgramAggregate) :=
  ps.map (fun p => if p.1 = k then (k, v) else p)

/-- `max` of a Python list of comparables: `none` on the empty list. -/
def list_max : List Nat → Option Nat
  | [] => none
  | x :: xs =>
    match list_max xs with
    | none => some x
    | some m => some (max x m)

/-- `min` of a Python list of comparables: `none` on the empty list. -/
def list_min : List Nat → Option Nat
  | [] => none
  | x :: xs =>
    match list_min xs with
    | none => some x
    | some m => some (min x m)

/-- Source lines 572-574: append each new time not already present, checking
against the growing list. -/
def merge_times (acc : List Nat) (ts : List Nat) : List Nat :=
  ts.foldl (fun acc t => if t ∈ acc then acc else acc ++ [t]) acc

/-- Source lines 547-579: `_add_to_programs`.  First sighting of a name seeds
the aggregate from the record (`first_execution = min` of the times if
non-empty, `last_execution` copied from the record); later sightings take the
max run count, append the filename, merge the times and recompute the bounds
from the merged list when it is non-empty. -/
def add_to_programs (st : AnalyzerState) (r : PrefetchRecord) : AnalyzerState :=
  match lookup_program st.programs r.executable_name with
  | none =>
    let agg : ProgramAggregate :=
      { name := r.executable_name
        run_count := r.run_count
        last_execution := r.last_execution
        first_execution := list_min r.execution_times
        execution_times := r.execution_times
        prefetch_files := [r.filename]
        version := r.version }
    { st with programs := st.programs ++ [(r.executable_name, agg)] }
  | some prog =>
    let times := merge_times prog.execution_times r.execution_times
    let agg : ProgramAggregate :=
      { prog with
        run_count := max prog.run_count r.run_count
        prefetch_files := prog.prefetch_files ++ [r.filename]
        execution_times := times
        last_execution := if times = [] then prog.last_execution else list_max times
        first_execution := if times = [] then prog.first_execution else list_min times }
    { st with programs := update_program st.programs r.executable_name agg }

/-- Source lines 536-545: `_add_to_timeline` appends one entry per execution
time (the `if exec_time:` guard is vacuous — `datetime` values are always
truthy). -/
def add_to_timeline (st : AnalyzerState) (r : PrefetchRecord) : AnalyzerState :=
  { st with
    execution_timeline := st.execution_timeline ++
      r.execution_times.map (fun t =>
        { timestamp := t, executable := r.executable_name, prefetch_file := r.filename }) }

/-- Source lines 166-217: `_parse_prefetch_file`.  A MAM-compressed buffer
bumps `compressed_count` and is decompressed; a decompression failure appends
the filename to `decompression_failed` and yields no record. -/
def parse_prefetch_file (st : AnalyzerState) (filename : String) (data : List Nat) :
    AnalyzerState × Option PrefetchRecord :=
  if data.take 4 = mam_magic then
    let st := { st with compressed_count := st.compressed_count + 1 }
    match decompress_mam data with
    | none => ({ st with decompression_failed := st.decompression_failed ++ [filename] }, none)
    | some d => (st, parse_prefetch_data d filename)
  else (st, parse_prefetch_data data filename)

/-- Source lines 119-132: the per-file body of `analyze`: parse, and on
success store the record and feed the timeline and program aggregates; on
failure the state from parsing (failure counters included) is kept and the
batch moves on. -/
def process_file (st : AnalyzerState) (filename : String) (data : List Nat) :
    AnalyzerState :=
  match parse_prefetch_file st filename data with
  | (st', none) => st'
  | (st', some r) =>
    let st1 := { st' with prefetch_files := st'.prefetch_files ++ [r] }
    add_to_programs (add_to_timeline st1 r) r

/-- The batch loop of `analyze` over `(filename, bytes)` pairs. -/
def analyze_files : AnalyzerState → List (String × List Nat) → AnalyzerState
  | st, [] => st
  | st, (fn, data) :: rest => analyze_files (process_file st fn data) rest

/-! ### Concrete inputs used by counterexamples and witnesses -/

/-- Compressed LZNT1 stream: one compressed chunk (header 0x8003) holding the
flag byte 0x02, the literal byte 0x41 and the back-reference token 0x0010. -/
def c1_bytes : List Nat := [0x03, 0x80, 0x02, 0x41, 0x10, 0x00]

/-- MAM container declaring uncompressed size 5 whose chunk stream opens with
a zero header, so the engine produces 0 bytes. -/
def c2_bytes : List Nat := [0x4D, 0x41, 0x4D, 0x04, 0x05, 0, 0, 0, 0, 0]

/-- Version 26 prefetch buffer (0xD4 zero bytes with the version stamp and
two FILETIME slots set): slot 0 holds 1000 (100 microseconds), slot 1 holds
2000 (200 microseconds), so the record's times are not most-recent-first. -/
def c3_bytes : List Nat :=
  (((((List.replicate 0xD4 0).set 0 26).set 0x80 0xE8).set 0x81 0x03).set
    0x88 0xD0).set 0x89 0x07

/-- The aggregate seeded from `c3_bytes`. -/
def c3_agg : ProgramAggregate :=
  { name := List.replicate 60 0
    run_count := 0
    last_execution := some 100
    first_execution := some 100
    execution_times := [100, 200]
    prefetch_files := ["A.pf"]
    version := 26 }

/-- Record for the C4 witness: run count 5, times most-recent-first. -/
def c4_record_a : PrefetchRecord :=
  { filename := "a.pf"
    version := 26
    version_name := prefetch_version_name 26
    executable_name := [65]
    prefetch_hash := 0
    run_count := 5
    last_execution := some 200
    execution_times := [200, 100] }

/-- Record for the C4 witness: run count 7, shares one time with `c4_record_a`. -/
def c4_record_b : PrefetchRecord :=
  { filename := "b.pf"
    version := 30
    version_name := prefetch_version_name 30
    executable_name := [65]
    prefetch_hash := 0
    run_count := 7
    last_execution := some 300
    execution_times := [300, 200] }

/-- A state already holding one aggregate under the key `[65]`, for the C9
witness. -/
def c9_agg : ProgramAggregate :=
  { name := [65]
    run_count := 4
    last_execution := some 150
    first_execution := some 150
    execution_times := [150]
    prefetch_files := ["p.pf"]
    version := 17 }

/-- A state already holding one aggregate, for the C9 witness. -/
def c9_state : AnalyzerState :=
  { init_state with programs := [([65], c9_agg)] }

/-- A version 30 record for the same name as `c9_agg`, for the C9 witness. -/
def c9_record : PrefetchRecord :=
  { filename := "c.pf"
    version := 30
    version_name := prefetch_version_name 30
    executable_name := [65]
    prefetch_hash := 9
    run_count := 3
    last_execution := some 300
    execution_times := [300] }

/-- MAM container for the C6 witness: declares size 3, stream terminates at
once, so the engine produces 0 bytes and decompression fails. -/
def c6_bytes : List Nat := [0x4D, 0x41, 0x4D, 0x04, 0x03, 0, 0, 0, 0, 0]

/-- Record-level invariant maintained by every parser: a record with no
execution times has no `last_execution` either (versions 17/23 build the time
list from the single converted FILETIME; versions 26/30 take `last_execution`
as the head of the time list). -/
def record_inv (r : PrefetchRecord) : Prop :=
  r.execution_times = [] → r.last_execution = none

/-! ## Supporting lemmas -/

/-- The token loop never moves the input cursor backwards. -/
theorem process_tokens_pos_le (data : List Nat) (size chunk_end : Nat) :
    ∀ bits flag pos output, pos ≤ (process_tokens data size chunk_end bits flag pos output).1 := by
  intro bits
  induction bits with
  | zero => intro flag pos output; exact Nat.le_refl _
  | succ b ih =>
    intro flag pos output
    simp only [process_tokens]
    split_ifs <;>
      first
        | exact Nat.le_refl _
        | exact Nat.le_trans (Nat.le_add_right pos 2) (ih _ _ _)
        | exact Nat.le_trans (Nat.le_add_right pos 1) (ih _ _ _)

/-- The flag-group loop of a compressed chunk never moves the cursor backwards. -/
theorem process_chunk_pos_le (data : List Nat) (size chunk_end : Nat) :
    ∀ fuel pos output, pos ≤ (process_chunk data size chunk_end fuel pos output).1 := by
  intro fuel
  induction fuel with
  | zero => intro pos output; exact Nat.le_refl _
  | succ f ih =>
    intro pos output
    simp only [process_chunk]
    split_ifs
    · exact Nat.le_trans
        (Nat.le_trans (Nat.le_succ pos) (process_tokens_pos_le data size chunk_end 8 _ (pos + 1) output))
        (ih _ _)
    · exact Nat.le_refl _
    · exact Nat.le_refl _

/-- The flag-group loop is insensitive to its fuel as soon as the fuel exceeds
the remaining input length: its iterations are bounded by input exhaustion. -/
theorem process_chunk_fuel_congr (data : List Nat) (size chunk_end : Nat) :
    ∀ f₁ f₂ pos output, data.length - pos < f₁ → data.length - pos < f₂ →
      process_chunk data size chunk_end f₁ pos output =
        process_chunk data size chunk_end f₂ pos output := by
  intro f₁
  induction f₁ with
  | zero => intro f₂ pos output h₁ h₂; omega
  | succ a ih =>
    intro f₂ pos output h₁ h₂
    match f₂ with
    | 0 => omega
    | b + 1 =>
      simp only [process_chunk]
      split_ifs with hg hd
      · have hpos := process_tokens_pos_le data size chunk_end 8 (data.getD pos 0) (pos + 1) output
        exact ih b _ _ (by omega) (by omega)
      · rfl
      · rfl

/-- The outer chunk loop is insensitive to its fuel as soon as the fuel
exceeds the remaining input length. -/
theorem lznt1_loop_fuel_congr (data : List Nat) (size : Nat) :
    ∀ f₁ f₂ pos output, data.length - pos < f₁ → data.length - pos < f₂ →
      lznt1_loop data size f₁ pos output = lznt1_loop data size f₂ pos output := by
  intro f₁
  induction f₁ with
  | zero => intro f₂ pos output h₁ h₂; omega
  | succ a ih =>
    intro f₂ pos output h₁ h₂
    match f₂ with
    | 0 => omega
    | b + 1 =>
      simp only [lznt1_loop]
      split_ifs with hg hshort hzero hflat
      · rfl
      · rfl
      · exact ih b _ _ (by omega) (by omega)
      · have hpos := process_chunk_pos_le data size
          (pos + 2 + ((readLE16 data pos &&& 0x0FFF) + 1)) (data.length + 1) (pos + 2) output
        exact ih b _ _ (by omega) (by omega)
      · rfl

/-- Soundness of the in-window copy: while the read cursor is below the output
length it stays there, the padding arm is never taken, and the copy coincides
with the fallback-free copy. -/
theorem copy_from_window_sound :
    ∀ (n : Nat) (output : List Nat) (start_pos : Nat), start_pos < output.length →
      copy_pad_used output start_pos n = false ∧
      copy_from_window output start_pos n = copy_in_window output start_pos n := by
  intro n
  induction n with
  | zero => intro output s h; exact ⟨rfl, rfl⟩
  | succ k ih =>
    intro output s h
    have h' : s + 1 < (output ++ [output.getD s 0]).length := by
      simp [List.length_append]; omega
    constructor
    · simp only [copy_pad_used, if_pos h]
      exact (ih _ _ h').1
    · simp only [copy_from_window, copy_in_window, if_pos h]
      exact (ih _ _ h').2

/-- Every execution time the version 26/30 slot loop collects is the image of
a non-zero FILETIME under the converter. -/
theorem exec_times_from_sound (data : List Nat) :
    ∀ fuel i t, t ∈ exec_times_from data i fuel →
      ∃ f, f ≠ 0 ∧ filetime_to_datetime f = some t := by
  intro fuel
  induction fuel with
  | zero => intro i t ht; simp [exec_times_from] at ht
  | succ k ih =>
    intro i t ht
    simp only [exec_times_from] at ht
    split at ht
    · simp at ht
    · split at ht
      next dt hconv =>
        rcases List.mem_cons.mp ht with rfl | hmem
        · refine ⟨readLE64 data (0x80 + i * 8), ?_, hconv⟩
          intro h0
          rw [h0] at hconv
          simp [filetime_to_datetime] at hconv
        · exact ih _ _ hmem
      next hconv => exact ih _ _ ht

/-! ## Claim C8 (confirmed): the LZNT1 decompressor terminates on every input
and never returns more than the target size -/

/-- Claim C8: the LZNT1 decompressor terminates on every (payload, target
size) input and the returned byte sequence never exceeds the target size.
All loops of the embedding are total by construction; the first conjunct
states the substance of termination: the outer chunk loop is bounded by input
exhaustion, so any fuel beyond `data.length` computes the same result as the
canonical run (the inner loops are likewise fuel-insensitive, see
`process_chunk_fuel_congr`); the second conjunct is the size bound on the
returned sequence. -/
theorem c8_lznt1_terminates_bounded :
    ∀ (data : List Nat) (size fuel : Nat), data.length < fuel →
      lznt1_loop data size fuel 0 [] = lznt1_loop data size (data.length + 1) 0 [] ∧
      (lznt1_decompress data size).length ≤ size := by
  intro data size fuel h
  constructor
  · exact lznt1_loop_fuel_congr data size fuel (data.length + 1) 0 [] (by omega) (by omega)
  · simp only [lznt1_decompress, List.length_take]
    exact Nat.min_le_left _ _

/-- Witness for C8 at a concrete input: one uncompressed chunk of two bytes. -/
theorem c8_lznt1_terminates_bounded_witness :
    ([1, 0, 65, 66] : List Nat).length < 50 ∧
    (lznt1_loop [1, 0, 65, 66] 2 50 0 [] = lznt1_loop [1, 0, 65, 66] 2 (([1, 0, 65, 66] : List Nat).length + 1) 0 [] ∧
      (lznt1_decompress [1, 0, 65, 66] 2).length ≤ 2) :=
  ⟨by decide, c8_lznt1_terminates_bounded [1, 0, 65, 66] 2 50 (by decide)⟩

/-! ## Claim C10 (confirmed): the back-reference copy for a valid distance
never leaves the already-produced output -/

/-- Claim C10: in the back-reference copy for a valid distance
(`1 ≤ match_distance ≤ len(output)`, the branch of the source that calls the
byte-by-byte copy), the read cursor starts below the output length and stays
there at every step: the in-loop zero-padding fallback arm is never taken
(`copy_pad_used = false`), and the copy coincides with the fallback-free copy
`copy_in_window`, so every copied byte is read from previously produced
output. -/
theorem c10_copy_in_window :
    ∀ (output : List Nat) (dist n : Nat), 1 ≤ dist → dist ≤ output.length →
      copy_pad_used output (output.length - dist) n = false ∧
      copy_from_window output (output.length - dist) n =
        copy_in_window output (output.length - dist) n := by
  intro output dist n h1 h2
  exact copy_from_window_sound n output _ (by omega)

/-- Witness for C10 at a concrete input: distance 2 into a 3-byte output,
copy length 4 (an overlapping run-length copy). -/
theorem c10_copy_in_window_witness :
    ((1 : Nat) ≤ 2 ∧ 2 ≤ ([10, 20, 30] : List Nat).length) ∧
    (copy_pad_used [10, 20, 30] (([10, 20, 30] : List Nat).length - 2) 4 = false ∧
      copy_from_window [10, 20, 30] (([10, 20, 30] : List Nat).length - 2) 4 =
        copy_in_window [10, 20, 30] (([10, 20, 30] : List Nat).length - 2) 4) :=
  ⟨by decide, c10_copy_in_window [10, 20, 30] 2 4 (by decide) (by decide)⟩

/-! ## Claim C1 (corrected): the back-reference bit split -/

/-- Counterexample to claim C1 as stated.  The claim says an output size below
0x10 uses 4 length bits; the engine's `length_bits` at output size 0 (and at
any size below 0x10) is 12, not 4.  The concrete run decodes the token 0x0010
at output size 1 into a match of length (0x10 & 0xFFF) + 3 = 19 at distance 1,
yielding twenty 0x41 bytes — impossible under 4 length bits, which would cap
the match length at (token & 0xF) + 3 = 18 and here would give length 3 at
distance 2. -/
theorem c1_bit_split_counterexample :
    length_bits 0 = 12 ∧ (12 : Nat) ≠ 4 ∧
    lznt1_decompress c1_bytes 20 = List.replicate 20 0x41 := by
  refine ⟨rfl, by decide, by decide⟩

/-- Claim C1 as amended: the split is the reverse of the claimed one.  For a
back-reference token decoded at output size `s`: `s < 0x10` uses 12 length
bits (4 distance bits); `s < 0x20` uses 11 (5); `s < 0x1000` uses 10 (6);
otherwise 4 length bits (12 distance bits).  With
`length_mask = (1 <<< length_bits) - 1`, the decoded match length is
`(token &&& length_mask) + 3` and the distance is
`(token >>> length_bits) + 1`, exactly as the engine's `decode_token`
computes. -/
theorem c1_bit_split_amended :
    ∀ output_size token : Nat,
      length_bits output_size =
        (if output_size < 0x10 then 12
         else if output_size < 0x20 then 11
         else if output_size < 0x1000 then 10
         else 4) ∧
      max_bits output_size + length_bits output_size = 16 ∧
      decode_token output_size token =
        ((token &&& ((1 <<< length_bits output_size) - 1)) + 3,
         (token >>> length_bits output_size) + 1) := by
  intro s token
  refine ⟨?_, ?_, rfl⟩ <;> (unfold length_bits max_bits; split_ifs <;> rfl)

/-! ## Claim C7 (corrected): the FILETIME conversion -/

/-- Exact-division case of the half-to-even rounding. -/
theorem rhe_div_exact (num den : Nat) (h : num % den = 0) (hden : 0 < den) :
    rhe_div num den = num / den := by
  rw [rhe_div, h]
  simp [hden]

/-- Correctness of the fuelled floor base-2 logarithm for sufficient fuel. -/
theorem log2_fuel_bounds : ∀ (fuel n : Nat), 0 < n → n < 2 ^ fuel →
    2 ^ log2_fuel fuel n ≤ n ∧ n < 2 ^ (log2_fuel fuel n + 1) := by
  intro fuel
  induction fuel with
  | zero =>
    intro n h1 h2
    rw [pow_zero] at h2
    omega
  | succ k ih =>
    intro n h1 h2
    simp only [log2_fuel]
    split_ifs with h
    · have hhalf : n / 2 < 2 ^ k := by
        rw [pow_succ] at h2
        omega
      obtain ⟨hl, hr⟩ := ih (n / 2) (by omega) hhalf
      constructor
      · rw [pow_succ]
        omega
      · rw [pow_succ]
        omega
    · have hn1 : n = 1 := by omega
      subst hn1
      simp

/-- Correctness of `nat_log2` on positive arguments. -/
theorem nat_log2_bounds (n : Nat) (h : 0 < n) :
    2 ^ nat_log2 n ≤ n ∧ n < 2 ^ (nat_log2 n + 1) :=
  log2_fuel_bounds n n h (Nat.lt_two_pow n)

/-- When the quotient is exactly representable in binary64 (an integer below
`2^53`), the float conversion is exact: both roundings are identities. -/
theorem float_round_div10_exact (q : Nat) (h1 : 0 < q) (h2 : q < 2 ^ 53) :
    float_round_div10 (10 * q) = q := by
  have hq : 10 * q * 2 ^ 60 / 10 = q * 2 ^ 60 := by
    have harr : 10 * q * 2 ^ 60 = 10 * (q * 2 ^ 60) := by ring
    rw [harr, Nat.mul_div_cancel_left _ (by norm_num : (0:Nat) < 10)]
  have hpos : 0 < q * 2 ^ 60 := by positivity
  obtain ⟨hl, hr⟩ := nat_log2_bounds (q * 2 ^ 60) hpos
  set e := nat_log2 (q * 2 ^ 60) with he
  have he60 : 60 ≤ e := by
    by_contra hcon
    push_neg at hcon
    have hle : (2:Nat) ^ (e + 1) ≤ 2 ^ 60 :=
      Nat.pow_le_pow_right (by norm_num) (by omega)
    have h60 : (2:Nat) ^ 60 ≤ q * 2 ^ 60 := Nat.le_mul_of_pos_left _ h1
    omega
  have he112 : e ≤ 112 := by
    by_contra hcon
    push_neg at hcon
    have hge : (2:Nat) ^ 113 ≤ 2 ^ e :=
      Nat.pow_le_pow_right (by norm_num) (by omega)
    have hlt : q * 2 ^ 60 < 2 ^ 113 := by
      calc q * 2 ^ 60 < 2 ^ 53 * 2 ^ 60 :=
            (Nat.mul_lt_mul_right (by positivity)).mpr h2
        _ = 2 ^ 113 := by rw [← pow_add]
    omega
  have hsplit : (2:Nat) ^ 60 = 2 ^ (e - 52) * 2 ^ (112 - e) := by
    rw [← pow_add]
    congr 1
    omega
  have hnum : 10 * q * 2 ^ 60 = (10 * 2 ^ (e - 52)) * (q * 2 ^ (112 - e)) := by
    calc 10 * q * 2 ^ 60 = 10 * q * (2 ^ (e - 52) * 2 ^ (112 - e)) := by rw [← hsplit]
      _ = (10 * 2 ^ (e - 52)) * (q * 2 ^ (112 - e)) := by ring
  have hinner : rhe_div (10 * q * 2 ^ 60) (10 * 2 ^ (e - 52)) = q * 2 ^ (112 - e) := by
    rw [hnum, rhe_div_exact _ _ (Nat.mul_mod_right _ _) (by positivity)]
    exact Nat.mul_div_cancel_left _ (by positivity)
  simp only [float_round_div10, hq, ← he]
  by_cases hbr : 112 ≤ e
  · rw [if_pos hbr, hinner]
    have he' : e = 112 := by omega
    rw [he']
    norm_num
  · rw [if_neg hbr, hinner, mul_comm q (2 ^ (112 - e)),
      rhe_div_exact _ _ (Nat.mul_mod_right _ _) (by positivity)]
    exact Nat.mul_div_cancel_left _ (by positivity)

set_option maxRecDepth 20000 in
/-- Counterexample to claim C7 as stated.  The claim says every non-zero
FILETIME `F` maps exactly to 1601-01-01 plus `F/10` microseconds.  Three
failures: the FILETIME 10^19 (a valid 64-bit value) would land in year
~33286, so the `datetime` addition overflows and the bare `except` turns the
timestamp into absent; `F = 15` carries fractional microseconds and converts
to 2 whole microseconds, not the exact 1.5; and
`F = 90071992547409930 = 10 * (2^53 + 1)` has an integer quotient that is not
representable in binary64 — the float division rounds it (ties to even) down
to 2^53 = 9007199254740992 microseconds, one below the claimed exact
`F/10 = 9007199254740993`. -/
theorem c7_filetime_counterexample :
    filetime_to_datetime 10000000000000000000 = none ∧
    filetime_to_datetime 15 = some 2 ∧ ¬ (10 * 2 = 15) ∧
    filetime_to_datetime 90071992547409930 = some 9007199254740992 ∧
    ¬ (10 * 9007199254740992 = 90071992547409930) := by
  refine ⟨by decide, by decide, by decide, by decide, by decide⟩

/-- Claim C7 as amended: the converter maps zero to absent.  A non-zero
FILETIME `F` is converted as the source computes it: `F/10` is rounded once
to the nearest binary64 double (ties to even) and then to a whole microsecond
(ties to even) — the value `float_round_div10 F` — and yields that timestamp
when it is at most the end of year 9999 (`datetime_max_micro`) and absent
otherwise.  In particular the conversion is exactly `F/10` microseconds when
`F` is a multiple of 10 whose quotient is below `2^53` (exactly
representable; such instants are in range, year ≤ 1886); above `2^53` the
value can deviate from `F/10`, as the counterexample shows.  The zero
sentinel never appears among a parsed record's execution times: every
collected time is the image of a non-zero FILETIME. -/
theorem c7_filetime_amended :
    filetime_to_datetime 0 = none ∧
    (∀ f : Nat, f ≠ 0 → float_round_div10 f ≤ datetime_max_micro →
      filetime_to_datetime f = some (float_round_div10 f)) ∧
    (∀ f : Nat, f ≠ 0 → datetime_max_micro < float_round_div10 f →
      filetime_to_datetime f = none) ∧
    (∀ f : Nat, f ≠ 0 → f % 10 = 0 → f / 10 < 2 ^ 53 →
      filetime_to_datetime f = some (f / 10)) ∧
    (∀ (data : List Nat) (t : Nat), t ∈ exec_times_8 data →
      ∃ f, f ≠ 0 ∧ filetime_to_datetime f = some t) := by
  refine ⟨rfl, ?_, ?_, ?_, ?_⟩
  · intro f h0 hle
    simp [filetime_to_datetime, h0, hle]
  · intro f h0 hgt
    simp [filetime_to_datetime, h0]
    omega
  · intro f h0 h10 h53
    have hf : 10 * (f / 10) = f := Nat.mul_div_cancel' (Nat.dvd_of_mod_eq_zero h10)
    have hq1 : 0 < f / 10 := by omega
    have hround : float_round_div10 f = f / 10 := by
      conv_lhs => rw [← hf]
      exact float_round_div10_exact (f / 10) hq1 h53
    have hp53 : (2:Nat) ^ 53 = 9007199254740992 := by norm_num
    have hin : f / 10 ≤ datetime_max_micro := by
      rw [hp53] at h53
      unfold datetime_max_micro
      omega
    simp [filetime_to_datetime, h0, hround, hin]
  · intro data t ht
    exact exec_times_from_sound data 8 0 t ht

/-- Witness for C7 as amended at concrete inputs: FILETIME 1000 converts to
exactly 100 microseconds after 1601. -/
theorem c7_filetime_amended_witness :
    filetime_to_datetime 1000 = some (1000 / 10) ∧ filetime_to_datetime 0 = none :=
  ⟨c7_filetime_amended.2.2.2.1 1000 (by decide) (by decide) (by decide),
   c7_filetime_amended.1⟩

/-! ## Claim C2 (confirmed): a declared-size mismatch rejects the file -/

/-- Claim C2: if the MAM-declared uncompressed size differs from the length
of the bytes the LZNT1 engine produces, the per-file step only bumps
`compressed_count` and appends the filename to `decompression_failed`: the
file contributes no record, no program aggregate and no timeline entries. -/
theorem c2_size_mismatch_rejected :
    ∀ (st : AnalyzerState) (fn : String) (data : List Nat),
      data.take 4 = mam_magic → 8 ≤ data.length →
      (lznt1_decompress (data.drop 8) (readLE32 data 4)).length ≠ readLE32 data 4 →
      process_file st fn data =
        { st with compressed_count := st.compressed_count + 1,
                  decompression_failed := st.decompression_failed ++ [fn] } := by
  intro st fn data hm h8 hmis
  have h8' : ¬ data.length < 8 := by omega
  have hnone : decompress_mam data = none := by
    simp [decompress_mam, hm, h8', hmis]
  simp [process_file, parse_prefetch_file, hm, hnone]

/-- Witness for C2: a MAM container declaring 1000... scaled down to 5 bytes
whose stream opens with a zero chunk header, so the engine produces 0 bytes. -/
theorem c2_size_mismatch_rejected_witness :
    (c2_bytes.take 4 = mam_magic ∧ 8 ≤ c2_bytes.length ∧
      (lznt1_decompress (c2_bytes.drop 8) (readLE32 c2_bytes 4)).length ≠ readLE32 c2_bytes 4) ∧
    process_file init_state "m.pf" c2_bytes =
      { init_state with compressed_count := init_state.compressed_count + 1,
                        decompression_failed := init_state.decompression_failed ++ ["m.pf"] } :=
  ⟨⟨by decide, by decide, by decide⟩,
   c2_size_mismatch_rejected init_state "m.pf" c2_bytes (by decide) (by decide) (by decide)⟩

/-! ## Claim C5 (confirmed): an unknown version yields no record and the
batch continues -/

/-- Claim C5: a buffer (not MAM-compressed, so its first four bytes are the
version field) whose version is outside {17, 23, 26, 30} produces no record,
stores nothing, raises nothing (the embedding is total), and the batch
continues with the next file as if this one had not existed. -/
theorem c5_unknown_version_rejected :
    ∀ (st : AnalyzerState) (fn : String) (data : List Nat) (rest : List (String × List Nat)),
      data.take 4 ≠ mam_magic → 4 ≤ data.length →
      readLE32 data 0 ∉ ([17, 23, 26, 30] : List Nat) →
      parse_prefetch_file st fn data = (st, none) ∧
      process_file st fn data = st ∧
      analyze_files st ((fn, data) :: rest) = analyze_files st rest := by
  intro st fn data rest hm h4 hv
  have h17 : readLE32 data 0 ≠ 17 := by intro h; exact hv (by simp [h])
  have h23 : readLE32 data 0 ≠ 23 := by intro h; exact hv (by simp [h])
  have h26 : readLE32 data 0 ≠ 26 := by intro h; exact hv (by simp [h])
  have h30 : readLE32 data 0 ≠ 30 := by intro h; exact hv (by simp [h])
  have h4' : ¬ data.length < 4 := by omega
  have hd : parse_prefetch_data data fn = none := by
    simp [parse_prefetch_data, h4', h17, h23, h26, h30]
  have hp : parse_prefetch_file st fn data = (st, none) := by
    simp [parse_prefetch_file, hm, hd]
  refine ⟨hp, ?_, ?_⟩
  · simp [process_file, hp]
  · simp [analyze_files, process_file, hp]

/-- Witness for C5: version 99. -/
theorem c5_unknown_version_rejected_witness :
    (([99, 0, 0, 0] : List Nat).take 4 ≠ mam_magic ∧
      readLE32 [99, 0, 0, 0] 0 ∉ ([17, 23, 26, 30] : List Nat)) ∧
    (parse_prefetch_file init_state "u.pf" [99, 0, 0, 0] = (init_state, none) ∧
      process_file init_state "u.pf" [99, 0, 0, 0] = init_state ∧
      analyze_files init_state [("u.pf", [99, 0, 0, 0])] = analyze_files init_state []) :=
  ⟨⟨by decide, by decide⟩,
   c5_unknown_version_rejected init_state "u.pf" [99, 0, 0, 0] []
     (by decide) (by decide) (by decide)⟩

/-! ## Claim C6 (corrected): which per-file failures are recorded -/

/-- Counterexample to claim C6 as stated.  An unsupported-version file (here
version 50) fails, yet the per-file step leaves the analyzer state — in
particular every failure list and counter (`decompression_failed`,
`compressed_count`) — completely unchanged: this failure is only logged,
never counted. -/
theorem c6_failure_counting_counterexample :
    process_file init_state "bad.pf" [50, 0, 0, 0] = init_state ∧
    (process_file init_state "bad.pf" [50, 0, 0, 0]).decompression_failed = [] ∧
    (process_file init_state "bad.pf" [50, 0, 0, 0]).compressed_count = 0 := by
  refine ⟨by decide, by decide, by decide⟩

/-- Claim C6 as amended: only decompression failures are recorded in a
caller-visible failure list before processing continues; unsupported-version
and truncated-record failures produce no record but leave every failure list
and counter unchanged (they are only logged).  The batch continues in every
case. -/
theorem c6_failure_counting_amended :
    (∀ (st : AnalyzerState) (fn : String) (data : List Nat),
       data.take 4 = mam_magic → decompress_mam data = none →
       parse_prefetch_file st fn data =
         ({ st with compressed_count := st.compressed_count + 1,
                    decompression_failed := st.decompression_failed ++ [fn] }, none)) ∧
    (∀ (st : AnalyzerState) (fn : String) (data : List Nat),
       data.take 4 ≠ mam_magic → 4 ≤ data.length →
       readLE32 data 0 ∉ ([17, 23, 26, 30] : List Nat) →
       parse_prefetch_file st fn data = (st, none)) ∧
    (∀ (st : AnalyzerState) (fn : String) (data : List Nat),
       data.take 4 ≠ mam_magic → data.length < 4 →
       parse_prefetch_file st fn data = (st, none)) ∧
    (∀ (st : AnalyzerState) (fn : String) (data : List Nat),
       data.take 4 ≠ mam_magic → 4 ≤ data.length → readLE32 data 0 = 17 →
       data.length < 0x94 →
       parse_prefetch_file st fn data = (st, none)) := by
  refine ⟨?_, ?_, ?_, ?_⟩
  · intro st fn data hm hnone
    simp [parse_prefetch_file, hm, hnone]
  · intro st fn data hm h4 hv
    have h17 : readLE32 data 0 ≠ 17 := by intro h; exact hv (by simp [h])
    have h23 : readLE32 data 0 ≠ 23 := by intro h; exact hv (by simp [h])
    have h26 : readLE32 data 0 ≠ 26 := by intro h; exact hv (by simp [h])
    have h30 : readLE32 data 0 ≠ 30 := by intro h; exact hv (by simp [h])
    have h4' : ¬ data.length < 4 := by omega
    simp [parse_prefetch_file, hm, parse_prefetch_data, h4', h17, h23, h26, h30]
  · intro st fn data hm h4
    simp [parse_prefetch_file, hm, parse_prefetch_data, h4]
  · intro st fn data hm h4 hv hshort
    have h4' : ¬ data.length < 4 := by omega
    simp [parse_prefetch_file, hm, parse_prefetch_data, h4', hv, parse_version_17, hshort]

/-- Witness for C6 as amended: a failing decompression is recorded
(`c6_bytes` declares size 3 and produces 0 bytes), and an unsupported
version is not. -/
theorem c6_failure_counting_amended_witness :
    (c6_bytes.take 4 = mam_magic ∧ decompress_mam c6_bytes = none) ∧
    parse_prefetch_file init_state "f.pf" c6_bytes =
      ({ init_state with compressed_count := init_state.compressed_count + 1,
                         decompression_failed := init_state.decompression_failed ++ ["f.pf"] },
       none) ∧
    parse_prefetch_file init_state "g.pf" [50, 0, 0, 0] = (init_state, none) :=
  ⟨⟨by decide, by decide⟩,
   c6_failure_counting_amended.1 init_state "f.pf" c6_bytes (by decide) (by decide),
   c6_failure_counting_amended.2.1 init_state "g.pf" [50, 0, 0, 0]
     (by decide) (by decide) (by decide)⟩

/-! ## Supporting lemmas for the aggregator -/

/-- `list_max` is `none` exactly on the empty list. -/
theorem list_max_eq_none (l : List Nat) : list_max l = none ↔ l = [] := by
  cases l with
  | nil => simp [list_max]
  | cons x xs =>
    simp only [list_max]
    cases list_max xs <;> simp

/-- `list_min` is `none` exactly on the empty list. -/
theorem list_min_eq_none (l : List Nat) : list_min l = none ↔ l = [] := by
  cases l with
  | nil => simp [list_min]
  | cons x xs =>
    simp only [list_min]
    cases list_min xs <;> simp

/-- The maximum of a list is one of its members. -/
theorem list_max_mem : ∀ (l : List Nat) (m : Nat), list_max l = some m → m ∈ l := by
  intro l
  induction l with
  | nil => intro m h; simp [list_max] at h
  | cons x xs ih =>
    intro m h
    rw [list_max] at h
    cases hx : list_max xs with
    | none =>
      rw [hx] at h
      injection h with h
      exact h ▸ List.mem_cons_self x xs
    | some m' =>
      rw [hx] at h
      injection h with h
      rcases max_choice x m' with h1 | h1
      · have hmx : m = x := by rw [← h, h1]
        rw [hmx]; exact List.mem_cons_self x xs
      · have hmm : m = m' := by rw [← h, h1]
        rw [hmm]; exact List.mem_cons_of_mem x (ih m' hx)

/-- The minimum of a list is one of its members. -/
theorem list_min_mem : ∀ (l : List Nat) (m : Nat), list_min l = some m → m ∈ l := by
  intro l
  induction l with
  | nil => intro m h; simp [list_min] at h
  | cons x xs ih =>
    intro m h
    rw [list_min] at h
    cases hx : list_min xs with
    | none =>
      rw [hx] at h
      injection h with h
      exact h ▸ List.mem_cons_self x xs
    | some m' =>
      rw [hx] at h
      injection h with h
      rcases min_choice x m' with h1 | h1
      · have hmx : m = x := by rw [← h, h1]
        rw [hmx]; exact List.mem_cons_self x xs
      · have hmm : m = m' := by rw [← h, h1]
        rw [hmm]; exact List.mem_cons_of_mem x (ih m' hx)

/-- Every member of a list is bounded by its `list_max`. -/
theorem le_list_max : ∀ (l : List Nat) (x : Nat), x ∈ l →
    ∃ m, list_max l = some m ∧ x ≤ m := by
  intro l
  induction l with
  | nil => intro x hx; simp at hx
  | cons y ys ih =>
    intro x hx
    rw [list_max]
    cases hy : list_max ys with
    | none =>
      have hnil : ys = [] := (list_max_eq_none ys).mp hy
      subst hnil
      simp at hx
      exact ⟨y, rfl, hx ▸ Nat.le_refl x⟩
    | some m =>
      rcases List.mem_cons.mp hx with rfl | hmem
      · exact ⟨max x m, rfl, le_max_left x m⟩
      · obtain ⟨m', hm', hx'⟩ := ih x hmem
        rw [hm'] at hy
        injection hy with hy
        exact ⟨max y m, rfl, hy ▸ Nat.le_trans hx' (le_max_right y m')⟩

/-- Every member of a list is bounded below by its `list_min`. -/
theorem list_min_le : ∀ (l : List Nat) (x : Nat), x ∈ l →
    ∃ m, list_min l = some m ∧ m ≤ x := by
  intro l
  induction l with
  | nil => intro x hx; simp at hx
  | cons y ys ih =>
    intro x hx
    rw [list_min]
    cases hy : list_min ys with
    | none =>
      have hnil : ys = [] := (list_min_eq_none ys).mp hy
      subst hnil
      simp at hx
      exact ⟨y, rfl, hx ▸ Nat.le_refl x⟩
    | some m =>
      rcases List.mem_cons.mp hx with rfl | hmem
      · exact ⟨min x m, rfl, min_le_left x m⟩
      · obtain ⟨m', hm', hx'⟩ := ih x hmem
        rw [hm'] at hy
        injection hy with hy
        exact ⟨min y m, rfl, hy ▸ Nat.le_trans (min_le_right y m') hx'⟩

/-- Two lists with the same members have the same `list_max`. -/
theorem list_max_congr {l₁ l₂ : List Nat} (h : ∀ t, t ∈ l₁ ↔ t ∈ l₂) :
    list_max l₁ = list_max l₂ := by
  cases h1 : list_max l₁ with
  | none =>
    cases h2 : list_max l₂ with
    | none => rfl
    | some m =>
      have hm : m ∈ l₁ := (h m).mpr (list_max_mem l₂ m h2)
      obtain ⟨m', hm', _⟩ := le_list_max l₁ m hm
      rw [h1] at hm'
      exact absurd hm' (by simp)
  | some m =>
    cases h2 : list_max l₂ with
    | none =>
      have hm : m ∈ l₂ := (h m).mp (list_max_mem l₁ m h1)
      obtain ⟨m', hm', _⟩ := le_list_max l₂ m hm
      rw [h2] at hm'
      exact absurd hm' (by simp)
    | some m' =>
      have hm2 : m ∈ l₂ := (h m).mp (list_max_mem l₁ m h1)
      have hm1 : m' ∈ l₁ := (h m').mpr (list_max_mem l₂ m' h2)
      obtain ⟨a, ha, hle⟩ := le_list_max l₂ m hm2
      obtain ⟨b, hb, hle'⟩ := le_list_max l₁ m' hm1
      rw [h2] at ha; injection ha with ha
      rw [h1] at hb; injection hb with hb
      have : m = m' := Nat.le_antisymm (ha ▸ hle) (hb ▸ hle')
      rw [this]

/-- Two lists with the same members have the same `list_min`. -/
theorem list_min_congr {l₁ l₂ : List Nat} (h : ∀ t, t ∈ l₁ ↔ t ∈ l₂) :
    list_min l₁ = list_min l₂ := by
  cases h1 : list_min l₁ with
  | none =>
    cases h2 : list_min l₂ with
    | none => rfl
    | some m =>
      have hm : m ∈ l₁ := (h m).mpr (list_min_mem l₂ m h2)
      obtain ⟨m', hm', _⟩ := list_min_le l₁ m hm
      rw [h1] at hm'
      exact absurd hm' (by simp)
  | some m =>
    cases h2 : list_min l₂ with
    | none =>
      have hm : m ∈ l₂ := (h m).mp (list_min_mem l₁ m h1)
      obtain ⟨m', hm', _⟩ := list_min_le l₂ m hm
      rw [h2] at hm'
      exact absurd hm' (by simp)
    | some m' =>
      have hm2 : m ∈ l₂ := (h m).mp (list_min_mem l₁ m h1)
      have hm1 : m' ∈ l₁ := (h m').mpr (list_min_mem l₂ m' h2)
      obtain ⟨a, ha, hle⟩ := list_min_le l₂ m hm2
      obtain ⟨b, hb, hle'⟩ := list_min_le l₁ m' hm1
      rw [h2] at ha; injection ha with ha
      rw [h1] at hb; injection hb with hb
      have : m = m' := Nat.le_antisymm (hb ▸ hle') (ha ▸ hle)
      rw [this]

/-- Membership in the merged time list is membership in either operand. -/
theorem mem_merge_times : ∀ (ts acc : List Nat) (t : Nat),
    t ∈ merge_times acc ts ↔ t ∈ acc ∨ t ∈ ts := by
  intro ts
  induction ts with
  | nil => intro acc t; simp [merge_times]
  | cons s ts ih =>
    intro acc t
    have hstep : merge_times acc (s :: ts) =
        merge_times (if s ∈ acc then acc else acc ++ [s]) ts := rfl
    rw [hstep, ih]
    by_cases hs : s ∈ acc
    · simp only [if_pos hs, List.mem_cons]
      constructor
      · rintro (h | h)
        · exact Or.inl h
        · exact Or.inr (Or.inr h)
      · rintro (h | rfl | h)
        · exact Or.inl h
        · exact Or.inl hs
        · exact Or.inr h
    · simp only [if_neg hs, List.mem_append, List.mem_singleton, List.mem_cons]
      tauto

/-- Appending a fresh binding at the end of the association list makes it the
lookup result for its key when the key was absent. -/
theorem lookup_program_append_right (ps : List (List Nat × ProgramAggregate))
    (k : List Nat) (v : ProgramAggregate) (h : lookup_program ps k = none) :
    lookup_program (ps ++ [(k, v)]) k = some v := by
  induction ps with
  | nil => simp [lookup_program]
  | cons hd tl ih =>
    cases hd with
    | mk k' v' =>
      rw [lookup_program] at h
      rw [List.cons_append, lookup_program]
      by_cases hk : k' = k
      · rw [if_pos hk] at h; exact absurd h (by simp)
      · rw [if_neg hk] at h ⊢; exact ih h

/-- Looking up the updated key returns the new value exactly when the key was
present. -/
theorem lookup_update_program (ps : List (List Nat × ProgramAggregate))
    (k : List Nat) (v : ProgramAggregate) :
    lookup_program (update_program ps k v) k =
      (lookup_program ps k).map (fun _ => v) := by
  induction ps with
  | nil => simp [update_program, lookup_program]
  | cons hd tl ih =>
    cases hd with
    | mk k' v' =>
      have hstep : update_program ((k', v') :: tl) k v =
          (if k' = k then (k, v) else (k', v')) :: update_program tl k v := rfl
      rw [hstep]
      by_cases hk : k' = k
      · subst hk
        rw [if_pos rfl]
        simp [lookup_program]
      · rw [if_neg hk, lookup_program, if_neg hk, lookup_program, if_neg hk]
        exact ih

/-- Unfolding of `add_to_programs` on a fresh executable name: the seeded
aggregate is appended. -/
theorem add_to_programs_of_none (st : AnalyzerState) (r : PrefetchRecord)
    (h : lookup_program st.programs r.executable_name = none) :
    add_to_programs st r =
      { st with programs := st.programs ++
          [(r.executable_name,
            { name := r.executable_name
              run_count := r.run_count
              last_execution := r.last_execution
              first_execution := list_min r.execution_times
              execution_times := r.execution_times
              prefetch_files := [r.filename]
              version := r.version })] } := by
  rw [add_to_programs, h]

/-- Unfolding of `add_to_programs` on an existing executable name: the stored
aggregate is merged with the record. -/
theorem add_to_programs_of_some (st : AnalyzerState) (r : PrefetchRecord)
    (prog : ProgramAggregate)
    (h : lookup_program st.programs r.executable_name = some prog) :
    add_to_programs st r =
      { st with programs := update_program st.programs r.executable_name <|
          { prog with
            run_count := max prog.run_count r.run_count
            prefetch_files := prog.prefetch_files ++ [r.filename]
            execution_times := merge_times prog.execution_times r.execution_times
            last_execution :=
              if merge_times prog.execution_times r.execution_times = []
              then prog.last_execution
              else list_max (merge_times prog.execution_times r.execution_times)
            first_execution :=
              if merge_times prog.execution_times r.execution_times = []
              then prog.first_execution
              else list_min (merge_times prog.execution_times r.execution_times) } } := by
  rw [add_to_programs, h]

/-- Every record the parser emits satisfies `record_inv`: empty execution
times force an absent `last_execution`. -/
theorem parse_prefetch_data_record_inv :
    ∀ (data : List Nat) (fn : String) (r : PrefetchRecord),
      parse_prefetch_data data fn = some r → record_inv r := by
  intro data fn r h hnil
  rw [parse_prefetch_data] at h
  split at h
  · exact absurd h (by simp)
  · simp only [] at h
    split_ifs at h
    · rw [parse_version_17] at h
      split at h
      · exact absurd h (by simp)
      · simp only [Option.some.injEq] at h
        subst h
        have hnil' : (match filetime_to_datetime (readLE64 data 0x78) with
            | some dt => [dt] | none => ([] : List Nat)) = [] := hnil
        show filetime_to_datetime (readLE64 data 0x78) = none
        cases hl : filetime_to_datetime (readLE64 data 0x78) with
        | none => rfl
        | some dt => rw [hl] at hnil'; exact absurd hnil' (by simp)
    · rw [parse_version_23] at h
      split at h
      · exact absurd h (by simp)
      · simp only [Option.some.injEq] at h
        subst h
        have hnil' : (match filetime_to_datetime (readLE64 data 0x80) with
            | some dt => [dt] | none => ([] : List Nat)) = [] := hnil
        show filetime_to_datetime (readLE64 data 0x80) = none
        cases hl : filetime_to_datetime (readLE64 data 0x80) with
        | none => rfl
        | some dt => rw [hl] at hnil'; exact absurd hnil' (by simp)
    · rw [parse_version_26] at h
      split at h
      · exact absurd h (by simp)
      · simp only [Option.some.injEq] at h
        subst h
        have hnil' : exec_times_8 data = [] := hnil
        show (exec_times_8 data).head? = none
        rw [hnil']
        rfl
    · rw [parse_version_30] at h
      split at h
      · exact absurd h (by simp)
      · simp only [Option.some.injEq] at h
        subst h
        have hnil' : exec_times_8 data = [] := hnil
        show (exec_times_8 data).head? = none
        rw [hnil']
        rfl

/-- Lifting of `parse_prefetch_data_record_inv` through the MAM branch of
`_parse_prefetch_file`. -/
theorem parse_prefetch_file_record_inv :
    ∀ (st : AnalyzerState) (fn : String) (data : List Nat) (st' : AnalyzerState)
      (r : PrefetchRecord),
      parse_prefetch_file st fn data = (st', some r) → record_inv r := by
  intro st fn data st' r h
  rw [parse_prefetch_file] at h
  split_ifs at h
  · cases hd : decompress_mam data with
    | none => rw [hd] at h; exact absurd (congrArg Prod.snd h) (by simp)
    | some d =>
      rw [hd] at h
      have := congrArg Prod.snd h
      simp only at this
      exact parse_prefetch_data_record_inv d fn r this
  · have := congrArg Prod.snd h
    simp only at this
    exact parse_prefetch_data_record_inv data fn r this

/-- Lookup after seeding a fresh executable name returns the seeded aggregate. -/
theorem lookup_add_to_programs_none (st : AnalyzerState) (r : PrefetchRecord)
    (h : lookup_program st.programs r.executable_name = none) :
    lookup_program (add_to_programs st r).programs r.executable_name =
      some
        { name := r.executable_name
          run_count := r.run_count
          last_execution := r.last_execution
          first_execution := list_min r.execution_times
          execution_times := r.execution_times
          prefetch_files := [r.filename]
          version := r.version } := by
  rw [add_to_programs_of_none st r h]
  exact lookup_program_append_right st.programs r.executable_name _ h

/-- Lookup after merging into an existing executable name returns the merged
aggregate. -/
theorem lookup_add_to_programs_some (st : AnalyzerState) (r : PrefetchRecord)
    (prog : ProgramAggregate)
    (h : lookup_program st.programs r.executable_name = some prog) :
    lookup_program (add_to_programs st r).programs r.executable_name =
      some
        { prog with
          run_count := max prog.run_count r.run_count
          prefetch_files := prog.prefetch_files ++ [r.filename]
          execution_times := merge_times prog.execution_times r.execution_times
          last_execution :=
            if merge_times prog.execution_times r.execution_times = []
            then prog.last_execution
            else list_max (merge_times prog.execution_times r.execution_times)
          first_execution :=
            if merge_times prog.execution_times r.execution_times = []
            then prog.first_execution
            else list_min (merge_times prog.execution_times r.execution_times) } := by
  rw [add_to_programs_of_some st r prog h]
  exact (lookup_update_program st.programs r.executable_name _).trans (by rw [h]; rfl)

/-- The aggregate visible after merging two records for the same (previously
absent) executable name, in the order first `A` then `B`. -/
theorem lookup_two_merge (st : AnalyzerState) (A B : PrefetchRecord) (k : List Nat)
    (hA : A.executable_name = k) (hB : B.executable_name = k)
    (hlk : lookup_program st.programs k = none) :
    lookup_program (add_to_programs (add_to_programs st A) B).programs k =
      some
        { name := A.executable_name
          run_count := max A.run_count B.run_count
          last_execution :=
            if merge_times A.execution_times B.execution_times = []
            then A.last_execution
            else list_max (merge_times A.execution_times B.execution_times)
          first_execution :=
            if merge_times A.execution_times B.execution_times = []
            then list_min A.execution_times
            else list_min (merge_times A.execution_times B.execution_times)
          execution_times := merge_times A.execution_times B.execution_times
          prefetch_files := [A.filename, B.filename]
          version := A.version } := by
  have hlkA : lookup_program st.programs A.executable_name = none := by
    rw [hA]; exact hlk
  have h1 := add_to_programs_of_none st A hlkA
  have h2 : lookup_program (add_to_programs st A).programs k =
      some
        { name := A.executable_name
          run_count := A.run_count
          last_execution := A.last_execution
          first_execution := list_min A.execution_times
          execution_times := A.execution_times
          prefetch_files := [A.filename]
          version := A.version } := by
    rw [h1]
    rw [← hA]
    exact lookup_program_append_right st.programs A.executable_name _ hlkA
  have h2' : lookup_program (add_to_programs st A).programs B.executable_name =
      some
        { name := A.executable_name
          run_count := A.run_count
          last_execution := A.last_execution
          first_execution := list_min A.execution_times
          execution_times := A.execution_times
          prefetch_files := [A.filename]
          version := A.version } := by
    rw [hB]; exact h2
  have h3 := add_to_programs_of_some (add_to_programs st A) B _ h2'
  rw [hB] at h3
  rw [h3]
  exact (lookup_update_program (add_to_programs st A).programs k _).trans (by rw [h2]; rfl)

/-! ## Claim C3 (corrected): aggregate execution bounds -/

set_option maxRecDepth 4000 in
/-- Counterexample to claim C3 as stated.  A version 26 file whose FILETIME
slots are not most-recent-first (slot 0 = 1000, slot 1 = 2000) parses to a
record with `execution_times = [100, 200]` and `last_execution = 100` (the
first slot); the aggregate seeded from this single record copies that field,
so its `last_execution` is 100 while the maximum of its non-empty
`execution_times` is 200. -/
theorem c3_bounds_counterexample :
    lookup_program (process_file init_state "A.pf" c3_bytes).programs
      (List.replicate 60 0) = some c3_agg ∧
    c3_agg.execution_times = [100, 200] ∧
    c3_agg.last_execution = some 100 ∧
    list_max c3_agg.execution_times = some 200 ∧
    c3_agg.last_execution ≠ list_max c3_agg.execution_times := by
  refine ⟨by decide, by decide, by decide, by decide, by decide⟩

/-- Claim C3 as amended: after any merge into an existing aggregate,
`last_execution` and `first_execution` are recomputed as the maximum and
minimum of the (non-empty) merged time set.  When an aggregate is seeded from
a single record, `first_execution` equals the minimum of the record's times,
but `last_execution` is copied from the record's own `last_execution` field,
so it equals the maximum only when that field does (as when the record's
times are listed most-recent-first). -/
theorem c3_bounds_amended :
    (∀ (st : AnalyzerState) (r : PrefetchRecord),
       lookup_program st.programs r.executable_name = none →
       ∃ agg,
         lookup_program (add_to_programs st r).programs r.executable_name = some agg ∧
         agg.execution_times = r.execution_times ∧
         agg.first_execution = list_min r.execution_times ∧
         agg.last_execution = r.last_execution ∧
         (r.last_execution = list_max r.execution_times →
           agg.last_execution = list_max agg.execution_times)) ∧
    (∀ (st : AnalyzerState) (r : PrefetchRecord) (prog : ProgramAggregate),
       lookup_program st.programs r.executable_name = some prog →
       ∃ agg,
         lookup_program (add_to_programs st r).programs r.executable_name = some agg ∧
         (agg.execution_times ≠ [] →
           agg.last_execution = list_max agg.execution_times ∧
           agg.first_execution = list_min agg.execution_times)) := by
  constructor
  · intro st r h
    refine ⟨_, lookup_add_to_programs_none st r h, rfl, rfl, rfl, ?_⟩
    intro hlast
    exact hlast
  · intro st r prog h
    refine ⟨_, lookup_add_to_programs_some st r prog h, ?_⟩
    intro hne
    constructor
    · show (if merge_times prog.execution_times r.execution_times = []
            then prog.last_execution
            else list_max (merge_times prog.execution_times r.execution_times)) =
          list_max (merge_times prog.execution_times r.execution_times)
      exact if_neg hne
    · show (if merge_times prog.execution_times r.execution_times = []
            then prog.first_execution
            else list_min (merge_times prog.execution_times r.execution_times)) =
          list_min (merge_times prog.execution_times r.execution_times)
      exact if_neg hne

/-- Witness for C3 as amended: seeding from `c4_record_a` (whose
`last_execution` does equal the maximum) and merging `c9_record` into the
existing `c9_agg`. -/
theorem c3_bounds_amended_witness :
    (lookup_program init_state.programs c4_record_a.executable_name = none ∧
      (∃ agg,
        lookup_program (add_to_programs init_state c4_record_a).programs
          c4_record_a.executable_name = some agg ∧
        agg.execution_times = c4_record_a.execution_times ∧
        agg.first_execution = list_min c4_record_a.execution_times ∧
        agg.last_execution = c4_record_a.last_execution ∧
        (c4_record_a.last_execution = list_max c4_record_a.execution_times →
          agg.last_execution = list_max agg.execution_times))) ∧
    (lookup_program c9_state.programs c9_record.executable_name = some c9_agg ∧
      (∃ agg,
        lookup_program (add_to_programs c9_state c9_record).programs
          c9_record.executable_name = some agg ∧
        (agg.execution_times ≠ [] →
          agg.last_execution = list_max agg.execution_times ∧
          agg.first_execution = list_min agg.execution_times))) :=
  ⟨⟨rfl, c3_bounds_amended.1 init_state c4_record_a rfl⟩,
   ⟨by decide, c3_bounds_amended.2 c9_state c9_record c9_agg (by decide)⟩⟩

/-! ## Claim C9 (confirmed): merges never touch an aggregate's identity -/

/-- Claim C9: when a record is merged into an existing aggregate, the
aggregate keeps its `version` and `name` exactly as seeded by the first
record, whatever the new record's version; only `run_count`,
`prefetch_files`, `execution_times`, `first_execution` and `last_execution`
are recomputed (the first two shown here, the rest in `c3_bounds_amended`). -/
theorem c9_merge_preserves_identity :
    ∀ (st : AnalyzerState) (r : PrefetchRecord) (prog : ProgramAggregate),
      lookup_program st.programs r.executable_name = some prog →
      ∃ agg,
        lookup_program (add_to_programs st r).programs r.executable_name = some agg ∧
        agg.version = prog.version ∧
        agg.name = prog.name ∧
        agg.prefetch_files = prog.prefetch_files ++ [r.filename] ∧
        agg.run_count = max prog.run_count r.run_count := by
  intro st r prog h
  exact ⟨_, lookup_add_to_programs_some st r prog h, rfl, rfl, rfl, rfl⟩

/-- Witness for C9: merging a version 30 record into the version 17 aggregate
`c9_agg` keeps version 17 and the seeded name. -/
theorem c9_merge_preserves_identity_witness :
    (lookup_program c9_state.programs c9_record.executable_name = some c9_agg) ∧
    ∃ agg,
      lookup_program (add_to_programs c9_state c9_record).programs
        c9_record.executable_name = some agg ∧
      agg.version = c9_agg.version ∧
      agg.name = c9_agg.name ∧
      agg.prefetch_files = c9_agg.prefetch_files ++ [c9_record.filename] ∧
      agg.run_count = max c9_agg.run_count c9_record.run_count :=
  ⟨by decide, c9_merge_preserves_identity c9_state c9_record c9_agg (by decide)⟩

/-! ## Claim C4 (confirmed): merge order does not matter -/

/-- Claim C4: for two records with the same executable name merged into a
previously absent aggregate, the two merge orders produce the same run count,
the same execution-time set and the same execution bounds (the file-list
order may differ).  The `record_inv` hypotheses — a record with no times has
no `last_execution` — hold of every record the parser emits, which the first
conjunct proves. -/
theorem c4_merge_commutative :
    (∀ (st : AnalyzerState) (fn : String) (data : List Nat) (st' : AnalyzerState)
        (r : PrefetchRecord),
        parse_prefetch_file st fn data = (st', some r) → record_inv r) ∧
    (∀ (st : AnalyzerState) (A B : PrefetchRecord),
        A.executable_name = B.executable_name →
        lookup_program st.programs A.executable_name = none →
        record_inv A → record_inv B →
        ∃ p q,
          lookup_program (add_to_programs (add_to_programs st A) B).programs
            A.executable_name = some p ∧
          lookup_program (add_to_programs (add_to_programs st B) A).programs
            A.executable_name = some q ∧
          p.run_count = q.run_count ∧
          (∀ t, t ∈ p.execution_times ↔ t ∈ q.execution_times) ∧
          p.first_execution = q.first_execution ∧
          p.last_execution = q.last_execution) := by
  constructor
  · exact parse_prefetch_file_record_inv
  · intro st A B hname hlk hA hB
    have hp := lookup_two_merge st A B A.executable_name rfl hname.symm hlk
    have hq := lookup_two_merge st B A A.executable_name hname.symm rfl hlk
    refine ⟨_, _, hp, hq, ?_, ?_, ?_, ?_⟩
    · exact max_comm A.run_count B.run_count
    · intro t
      show t ∈ merge_times A.execution_times B.execution_times ↔
        t ∈ merge_times B.execution_times A.execution_times
      rw [mem_merge_times, mem_merge_times]
      tauto
    · show (if merge_times A.execution_times B.execution_times = []
            then list_min A.execution_times
            else list_min (merge_times A.execution_times B.execution_times)) =
          (if merge_times B.execution_times A.execution_times = []
            then list_min B.execution_times
            else list_min (merge_times B.execution_times A.execution_times))
      by_cases hT : merge_times A.execution_times B.execution_times = []
      · have hAe : A.execution_times = [] := by
          rw [List.eq_nil_iff_forall_not_mem]
          intro t ht
          have hmem : t ∈ merge_times A.execution_times B.execution_times :=
            (mem_merge_times _ _ _).mpr (Or.inl ht)
          rw [hT] at hmem
          simp at hmem
        have hBe : B.execution_times = [] := by
          rw [List.eq_nil_iff_forall_not_mem]
          intro t ht
          have hmem : t ∈ merge_times A.execution_times B.execution_times :=
            (mem_merge_times _ _ _).mpr (Or.inr ht)
          rw [hT] at hmem
          simp at hmem
        have hT' : merge_times B.execution_times A.execution_times = [] := by
          rw [hBe, hAe]; rfl
        rw [if_pos hT, if_pos hT', hAe, hBe]
      · have hT' : merge_times B.execution_times A.execution_times ≠ [] := by
          intro h'
          apply hT
          rw [List.eq_nil_iff_forall_not_mem] at h' ⊢
          intro t ht
          exact h' t ((mem_merge_times _ _ _).mpr
            (Or.symm ((mem_merge_times _ _ _).mp ht)))
        rw [if_neg hT, if_neg hT']
        apply list_min_congr
        intro t
        rw [mem_merge_times, mem_merge_times]
        tauto
    · show (if merge_times A.execution_times B.execution_times = []
            then A.last_execution
            else list_max (merge_times A.execution_times B.execution_times)) =
          (if merge_times B.execution_times A.execution_times = []
            then B.last_execution
            else list_max (merge_times B.execution_times A.execution_times))
      by_cases hT : merge_times A.execution_times B.execution_times = []
      · have hAe : A.execution_times = [] := by
          rw [List.eq_nil_iff_forall_not_mem]
          intro t ht
          have hmem : t ∈ merge_times A.execution_times B.execution_times :=
            (mem_merge_times _ _ _).mpr (Or.inl ht)
          rw [hT] at hmem
          simp at hmem
        have hBe : B.execution_times = [] := by
          rw [List.eq_nil_iff_forall_not_mem]
          intro t ht
          have hmem : t ∈ merge_times A.execution_times B.execution_times :=
            (mem_merge_times _ _ _).mpr (Or.inr ht)
          rw [hT] at hmem
          simp at hmem
        have hT' : merge_times B.execution_times A.execution_times = [] := by
          rw [hBe, hAe]; rfl
        rw [if_pos hT, if_pos hT', hA hAe, hB hBe]
      · have hT' : merge_times B.execution_times A.execution_times ≠ [] := by
          intro h'
          apply hT
          rw [List.eq_nil_iff_forall_not_mem] at h' ⊢
          intro t ht
          exact h' t ((mem_merge_times _ _ _).mpr
            (Or.symm ((mem_merge_times _ _ _).mp ht)))
        rw [if_neg hT, if_neg hT']
        apply list_max_congr
        intro t
        rw [mem_merge_times, mem_merge_times]
        tauto

/-- Witness for C4 at the spec's own scenario shape: run counts 5 and 7,
overlapping time sets, merged in both orders. -/
theorem c4_merge_commutative_witness :
    (c4_record_a.executable_name = c4_record_b.executable_name ∧
      lookup_program init_state.programs c4_record_a.executable_name = none) ∧
    ∃ p q,
      lookup_program
        (add_to_programs (add_to_programs init_state c4_record_a) c4_record_b).programs
        c4_record_a.executable_name = some p ∧
      lookup_program
        (add_to_programs (add_to_programs init_state c4_record_b) c4_record_a).programs
        c4_record_a.executable_name = some q ∧
      p.run_count = q.run_count ∧
      (∀ t, t ∈ p.execution_times ↔ t ∈ q.execution_times) ∧
      p.first_execution = q.first_execution ∧
      p.last_execution = q.last_execution :=
  ⟨⟨rfl, rfl⟩,
   c4_merge_commutative.2 init_state c4_record_a c4_record_b rfl rfl
     (by intro h; simp [c4_record_a] at h)
     (by intro h; simp [c4_record_b] at h)⟩
